import Mathlib

/-!
Verification development for the containerd metadata store, snapshot lineage
store and garbage collector.

Pure functions from the repository's source are embedded as Lean definitions.
The metadata/GC engine itself ships only its tests in this tree, so those
parts are modelled from the specification document (each such definition's
doc comment starts with "Modelled from the spec:"); the behaviour of the
models is checked against the expectations of the in-tree tests
(core/metadata/db_test.go, core/metadata/snapshot_test.go).
-/

namespace Util

/-- Go map write on an association list: overwrite the binding if the key is
present, otherwise append it. -/
def setAssoc (l : List (String × String)) (k v : String) : List (String × String) :=
  match l with
  | [] => [(k, v)]
  | (k', v') :: rest => if k' = k then (k, v) :: rest else (k', v') :: setAssoc rest k v

/-- Go map write for a `map[string]uint` counter. -/
def setAssocN (l : List (String × Nat)) (k : String) (v : Nat) : List (String × Nat) :=
  match l with
  | [] => [(k, v)]
  | (k', v') :: rest => if k' = k then (k, v) :: rest else (k', v') :: setAssocN rest k v

/-- Go map read with zero default: `idx := keys[key]`. -/
def lookupD (l : List (String × Nat)) (k : String) : Nat :=
  match l with
  | [] => 0
  | (k', v') :: rest => if k' = k then v' else lookupD rest k

/-- Go map read on a string association list, `none` when the key is absent. -/
def lookupS (l : List (String × String)) (k : String) : Option String :=
  match l with
  | [] => none
  | (k', v') :: rest => if k' = k then some v' else lookupS rest k

/-- Go map read with empty-string default: `m[key]` on a `map[string]string`. -/
def lookupSD (l : List (String × String)) (k : String) : String :=
  (lookupS l k).getD ""

/-- Strip a literal character-list from the front of another, `none` when it
is not a prefix of it. -/
def strDropPre : List Char → List Char → Option (List Char)
  | [], s => some s
  | _ :: _, [] => none
  | p :: ps, c :: cs => if p = c then strDropPre ps cs else none

/-- The characters before the first `'.'`. -/
def uptoDot : List Char → List Char
  | [] => []
  | c :: cs => if c = '.' then [] else c :: uptoDot cs

end Util

/-- Decidable equality of fallible results. -/
instance {ε α : Type} [DecidableEq ε] [DecidableEq α] : DecidableEq (Except ε α) :=
  fun a b =>
  match a, b with
  | .ok x, .ok y =>
    if h : x = y then isTrue (by rw [h]) else isFalse (fun hc => h (Except.ok.inj hc))
  | .error x, .error y =>
    if h : x = y then isTrue (by rw [h]) else isFalse (fun hc => h (Except.error.inj hc))
  | .ok _, .error _ => isFalse (fun hc => Except.noConfusion hc)
  | .error _, .ok _ => isFalse (fun hc => Except.noConfusion hc)

namespace Images

open Util

/-- An OCI descriptor, reduced to the two fields the labeling handler reads:
the media type (used only by the label mapping) and the digest rendered as a
string (`ch.Digest.String()`). -/
structure Descriptor where
  mediaType : String
  digest : String
deriving DecidableEq, Repr

/-- `key[len(key)-1] == '.'` of handlers.go (total: an empty key counts as
not ending in a dot). -/
def endsWithDot (k : String) : Bool :=
  match k.toList.getLast? with
  | some c => c = '.'
  | none => false

/-- Accumulator mirroring the three locals of the `len(children) > 0` block
of SetChildrenMappedLabels: `info.Labels`, `fields`, `keys`. -/
structure LabelAcc where
  labels : List (String × String)
  fields : List String
  keys : List (String × Nat)
deriving DecidableEq, Repr

/-- Body of the inner `for _, key := range labelKeys` loop of
SetChildrenMappedLabels, acting on one (key, child-digest) pair:
read and bump the occurrence counter, append the index to the key when the
counter was positive or the key ends with '.', record the label and the
field path. -/
def pairStep (st : LabelAcc) (p : String × String) : LabelAcc :=
  let key := p.1
  let idx := lookupD st.keys key
  let keys := setAssocN st.keys key (idx + 1)
  let key2 := if idx > 0 ∨ endsWithDot key then key ++ toString idx else key
  { labels := setAssoc st.labels key2 p.2
    fields := st.fields ++ ["labels." ++ key2]
    keys := keys }

/-- The (label key, child digest) pairs processed by the nested loops
`for _, ch := range children { for _, key := range labelMap(ch) }`,
in processing order. -/
def childPairs (labelMap : Descriptor → List String) (children : List Descriptor) :
    List (String × String) :=
  children.flatMap (fun ch => (labelMap ch).map (fun k => (k, ch.digest)))

/-- The single content-store Update call issued by the wrapper: the digest it
addresses, the label map it carries and its field-path list. -/
structure UpdateCall where
  digest : String
  labels : List (String × String)
  fields : List String
deriving DecidableEq, Repr

/-- SetChildrenMappedLabels of core/images/handlers.go, as the function from
the wrapped handler's output (the children returned for `desc`) to the
content-store Update call it issues: `none` when no children are returned
(no Update happens), otherwise the one Update on `desc.Digest` built by the
nested loops. -/
def SetChildrenMappedLabels (labelMap : Descriptor → List String) (desc : Descriptor)
    (children : List Descriptor) : Option UpdateCall :=
  if children.isEmpty then none
  else
    let st := (childPairs labelMap children).foldl pairStep ⟨[], [], []⟩
    some ⟨desc.digest, st.labels, st.fields⟩

/-- The effective label key for a raw key `k` arriving after the raw keys
`prev` were already processed, stated the way the claim reads: the
occurrence index (the number of earlier uses of `k`) is appended exactly
when that index is positive or `k` ends with '.'. -/
def effKey (prev : List String) (k : String) : String :=
  if 0 < prev.count k ∨ endsWithDot k then k ++ toString (prev.count k) else k

/-- Declarative rendering of the whole pair sequence: each raw (key, digest)
pair becomes (effective key, digest). -/
def effPairs : List String → List (String × String) → List (String × String)
  | _, [] => []
  | prev, (k, d) :: rest => (effKey prev k, d) :: effPairs (prev ++ [k]) rest

/-- Insert a sequence of (key, value) pairs into a label map, later entries
overwriting earlier ones (Go map semantics). -/
def insertAll (init ps : List (String × String)) : List (String × String) :=
  ps.foldl (fun a p => setAssoc a p.1 p.2) init

end Images

namespace ImagesService

/-- local.Delete of the images service (plugins/services/images): the
control flow from the store delete and the optional synchronous garbage
collection, as a function of the store-delete outcome, the request's Sync
flag and the ScheduleAndWait outcome.  Returns the error the caller sees
(store errors pass through errgrpc.ToGRPC, modelled by the abstract `toGRPC`;
GC errors are returned as-is) together with whether ScheduleAndWait ran. -/
def localDelete {E : Type} (toGRPC : E → E) (storeDelete : Option E) (sync : Bool)
    (gcResult : Option E) : Option E × Bool :=
  match storeDelete with
  | some err => (some (toGRPC err), false)
  | none =>
    if sync then
      match gcResult with
      | some err => (some err, true)
      | none => (none, true)
    else (none, false)

end ImagesService

namespace Snapshots

/-- Snapshot lifecycle kind. -/
inductive Kind where
  | view
  | active
  | committed
deriving DecidableEq, Repr

/-- The per-snapshot metadata record the lineage store keeps: the stable
numeric id, the parent key ("" for a root snapshot) and the kind. -/
structure SnapRecord where
  id : Nat
  parent : String
  kind : Kind
deriving DecidableEq, Repr

/-- Error taxonomy of the store layer (§7). -/
inductive SnapErr where
  | notFound
  | failedPrecondition
  | alreadyExists
  | invalidArgument
deriving DecidableEq, Repr

/-- Modelled from the spec: the snapshot lineage store's bucket for one
snapshotter in one namespace — records keyed by snapshot key, plus the
secondary composite parent→child index keyed `(parentID, childID)` (§3,
§4.3); metadata/snapshot.go is not in this tree. -/
structure SnapStore where
  records : List (String × SnapRecord)
  parentIndex : List (Nat × Nat)
deriving DecidableEq, Repr

/-- Record lookup by snapshot key. -/
def getRecord (s : SnapStore) (key : String) : Option SnapRecord :=
  (s.records.find? (fun kr => kr.1 == key)).map (·.2)

/-- Modelled from the spec: `Remove(key) -> (id, kind)` of §4.3 — fails
`NotFound` when the key is absent, `FailedPrecondition` if the reverse index
shows any child still referencing this node's id; on success deletes the
record and the parent-index entry for its own parent link. -/
def Remove (s : SnapStore) (key : String) : Except SnapErr (SnapStore × Nat × Kind) :=
  match getRecord s key with
  | none => .error .notFound
  | some r =>
    if s.parentIndex.any (fun e => e.1 == r.id) then .error .failedPrecondition
    else .ok ({ records := s.records.filter (fun kr => !(kr.1 == key))
              , parentIndex := s.parentIndex.filter (fun e => !(e.2 == r.id)) },
              r.id, r.kind)

/-- Well-formedness of a snapshot store: keys are unique, ids are unique,
and the parent→child index holds exactly the pairs `(parent record id,
child record id)` for records whose `parent` field names the parent's key. -/
def WellFormed (s : SnapStore) : Prop :=
  (∀ p ∈ s.records, ∀ q ∈ s.records, p.1 = q.1 → p = q) ∧
  (∀ p ∈ s.records, ∀ q ∈ s.records, p.2.id = q.2.id → p = q) ∧
  (∀ e ∈ s.parentIndex,
    ∃ p ∈ s.records, ∃ q ∈ s.records,
      p.2.id = e.2 ∧ q.2.id = e.1 ∧ p.2.parent = q.1) ∧
  (∀ p ∈ s.records, ∀ q ∈ s.records,
      p.2.parent = q.1 → (q.2.id, p.2.id) ∈ s.parentIndex)

instance (s : SnapStore) : Decidable (WellFormed s) := by
  unfold WellFormed
  infer_instance

/-- The committed chain s1 ← s2 ← s3 of the spec's removal scenario. -/
def chain3 : SnapStore :=
  { records := [("s1", ⟨1, "", .committed⟩), ("s2", ⟨2, "s1", .committed⟩),
                ("s3", ⟨3, "s2", .committed⟩)]
  , parentIndex := [(1, 2), (2, 3)] }

end Snapshots

namespace Containers

open Util

/-- A container record: id, snapshot reference, image, runtime, serialized
spec blob, labels and extensions (§3). -/
structure Container where
  id : String
  snapshotKey : String
  snapshotter : String
  image : String
  runtimeName : String
  spec : String
  labels : List (String × String)
  extensions : List (String × String)
deriving DecidableEq, Repr

/-- Store-layer error taxonomy relevant to Update. -/
inductive UpdErr where
  | invalidArgument
  | notFound
deriving DecidableEq, Repr

/-- Modelled from the spec: apply one field path of a container Update
(§4.2, §4.4) — `labels.<k>` / `extensions.<k>` copy exactly that sub-key
from the input record, `labels` / `extensions` / `image` / `spec` replace
that whole mutable field, anything else is `InvalidArgument`. -/
def applyPath (input : Container) (base : Container) (path : String) :
    Except UpdErr Container :=
  match strDropPre "labels.".toList path.toList with
  | some k =>
    let key := String.mk k
    .ok { base with labels := setAssoc base.labels key (lookupSD input.labels key) }
  | none =>
  match strDropPre "extensions.".toList path.toList with
  | some k =>
    let key := String.mk k
    .ok { base with extensions := setAssoc base.extensions key (lookupSD input.extensions key) }
  | none =>
    if path = "labels" then .ok { base with labels := input.labels }
    else if path = "extensions" then .ok { base with extensions := input.extensions }
    else if path = "image" then .ok { base with image := input.image }
    else if path = "spec" then .ok { base with spec := input.spec }
    else .error .invalidArgument

/-- Modelled from the spec: container-store `Update(obj, fieldpaths...)` —
with zero field paths it replaces the full mutable portion of the record
(labels and the designated mutable fields); with field paths it is a
targeted merge over exactly the addressed sub-keys (§4.4). -/
def Update (base input : Container) (fieldpaths : List String) :
    Except UpdErr Container :=
  if fieldpaths.isEmpty then
    .ok { base with labels := input.labels, extensions := input.extensions,
                    image := input.image, spec := input.spec }
  else fieldpaths.foldlM (applyPath input) base

end Containers

namespace Metadata

/-- A metadata database with its persisted schema version and abstract
payload (the object graph stored under the version bucket). -/
structure MetaDB (P : Type) where
  version : Nat
  payload : P

/-- Sequential application of a migration list. -/
def applyMigrations {P : Type} (migs : List (P → P)) (p : P) : P :=
  migs.foldl (fun q m => m q) p

/-- The current schema version: the index one past the last migration, so a
fully migrated database stores the length of the migration list. -/
def dbVersionOf {P : Type} (migs : List (P → P)) : Nat := migs.length

/-- Modelled from the spec: the Init migration loop (§4.7) — iterate over
the whole migration list with its index, skipping entries whose index is
below the stored version, applying the rest in order. -/
def initGo {P : Type} (v : Nat) : Nat → List (P → P) → P → P
  | _, [], p => p
  | i, m :: ms, p => initGo v (i + 1) ms (if v ≤ i then m p else p)

/-- Modelled from the spec: database open/Init (§4.7) — read the stored
version, run every migration whose index is at least that version in list
order inside one write transaction (atomicity modelled by this being one
pure state transformation), then persist the new version. -/
def Init {P : Type} (migs : List (P → P)) (db : MetaDB P) : MetaDB P :=
  { version := dbVersionOf migs, payload := initGo db.version 0 migs db.payload }

end Metadata

namespace GC

open Util

/-- A garbage-collection graph node: a resource-type tag, a namespace and a
type-specific key (pkg/gc `Node`). -/
structure Node where
  ty : Nat
  ns : String
  key : String
deriving DecidableEq, Repr

/-- Resource-type tags. Only distinctness matters to the model; registered
collectible resources use further tags. -/
def ResourceContent : Nat := 1

def ResourceSnapshot : Nat := 2

def ResourceLease : Nat := 5

def ResourceImage : Nat := 8

/-- A content node's metadata: digest, size and labels (§3). -/
structure ContentRecord where
  ns : String
  dgst : String
  size : Nat
  labels : List (String × String)
deriving DecidableEq, Repr

/-- A snapshot node's metadata: snapshotter, key, parent key ("" for a root
snapshot) and labels (§3). -/
structure SnapshotRecord where
  ns : String
  snapshotter : String
  key : String
  parent : String
  labels : List (String × String)
deriving DecidableEq, Repr

/-- An image record: name, target descriptor digest and labels (§3). -/
structure ImageRecord where
  ns : String
  name : String
  target : String
  labels : List (String × String)
deriving DecidableEq, Repr

/-- A container record as the GC sees it: its snapshot reference and its
labels (§3). -/
structure ContainerRecord where
  ns : String
  id : String
  snapshotter : String
  snapshotKey : String
  labels : List (String × String)
deriving DecidableEq, Repr

/-- A lease record: id, labels (`gc.expire`, `gc.flat`) and its owned
resource references `(type, id)` (§3). -/
structure LeaseRecord where
  ns : String
  id : String
  labels : List (String × String)
  resources : List (String × String)
deriving DecidableEq, Repr

/-- Modelled from the spec: the namespaced object graph one GC cycle works
on — every store's records plus the records of registered collectible
resources (`extras`, given directly as nodes since their internal shape is
opaque to the GC, §4.6). -/
structure DBState where
  contents : List ContentRecord
  snapshots : List SnapshotRecord
  images : List ImageRecord
  containers : List ContainerRecord
  leases : List LeaseRecord
  extras : List Node
deriving DecidableEq, Repr

/-- A registered collectible resource (§4.6): its type tag, the label
suffix under which `gc.ref.<label>` edges point at it, its always-live
active set, its per-lease rooted nodes, and its reference-scanning callback
given as a finite table. -/
structure Collector where
  ty : Nat
  refLabel : String
  active : List (String × String)
  leased : List (String × String × String)
  refs : List (Node × List Node)
deriving DecidableEq, Repr

/-- The GC cycle's environment: the clock (whether a timestamp label value
has expired) and the registered collectible resources. -/
structure Env where
  expired : String → Bool
  collectors : List Collector

def labelGCRoot : String := "containerd.io/gc.root"

def labelGCFlat : String := "containerd.io/gc.flat"

def labelGCExpire : String := "containerd.io/gc.expire"

def labelGCRefChars : List Char := "containerd.io/gc.ref.".toList

def contentNode (c : ContentRecord) : Node := ⟨ResourceContent, c.ns, c.dgst⟩

def snapshotNode (r : SnapshotRecord) : Node :=
  ⟨ResourceSnapshot, r.ns, r.snapshotter ++ "/" ++ r.key⟩

def imageNode (i : ImageRecord) : Node := ⟨ResourceImage, i.ns, i.name⟩

def leaseNode (l : LeaseRecord) : Node := ⟨ResourceLease, l.ns, l.id⟩

/-- Modelled from the spec: parse one label into its outgoing edges — keys
matching `containerd.io/gc.ref.content.<suffix>` point at a content digest,
`containerd.io/gc.ref.snapshot/<snapshotter>.<suffix>` at a snapshot key,
and `containerd.io/gc.ref.<tag>...` at a registered collectible resource
whose reference label is `<tag>` (§3, §4.5 step 3, §9). -/
def labelEdge (env : Env) (ns : String) (kv : String × String) : List Node :=
  match strDropPre labelGCRefChars kv.1.toList with
  | none => []
  | some rest =>
    if rest = "content".toList ∨ (strDropPre "content.".toList rest).isSome then
      [⟨ResourceContent, ns, kv.2⟩]
    else
      match strDropPre "snapshot/".toList rest with
      | some srest => [⟨ResourceSnapshot, ns, String.mk (uptoDot srest) ++ "/" ++ kv.2⟩]
      | none =>
        (env.collectors.filter (fun c => c.refLabel == String.mk (uptoDot rest))).map
          (fun c => ⟨c.ty, ns, kv.2⟩)

/-- All `gc.ref.*` edges of a label map. -/
def labelRefs (env : Env) (ns : String) (labels : List (String × String)) : List Node :=
  labels.flatMap (labelEdge env ns)

/-- Whether a content record carries an unexpired `gc.root` label. -/
def contentRootLive (env : Env) (c : ContentRecord) : Bool :=
  match lookupS c.labels labelGCRoot with
  | some v => !env.expired v
  | none => false

/-- Whether a lease has expired (its `gc.expire` label names a timestamp in
the past). -/
def leaseExpired (env : Env) (l : LeaseRecord) : Bool :=
  match lookupS l.labels labelGCExpire with
  | some v => env.expired v
  | none => false

/-- Whether a lease is in flat marking mode (`gc.flat` label present). -/
def leaseFlat (l : LeaseRecord) : Bool := (lookupS l.labels labelGCFlat).isSome

/-- Modelled from the spec: a lease resource reference `(type, id)` as a
graph node — type "content" is a content digest, "snapshots/<snapshotter>"
a snapshot key, and a registered collectible type tag one of its nodes
(§3 Lease, §4.4). -/
def resourceNode (env : Env) (ns : String) (r : String × String) : List Node :=
  if r.1 = "content" then [⟨ResourceContent, ns, r.2⟩]
  else
    match strDropPre "snapshots/".toList r.1.toList with
    | some sn => [⟨ResourceSnapshot, ns, String.mk sn ++ "/" ++ r.2⟩]
    | none =>
      (env.collectors.filter (fun c => c.refLabel == r.1)).map (fun c => ⟨c.ty, ns, r.2⟩)

/-- Modelled from the spec: root collection (§4.5 step 2) — every content
node with an unexpired `gc.root` label; every container (rooting its
snapshot and its label-referenced content); every image; every unexpired
lease (the lease node itself, its listed resources — marked flat when the
lease carries the `gc.flat` label — and the nodes each registered
collectible resource reports for it); every collectible resource's active
set.  The Bool is the flat marking flag. -/
def rootsOf (env : Env) (s : DBState) : List (Node × Bool) :=
  (s.contents.filter (contentRootLive env)).map (fun c => (contentNode c, false))
  ++ s.containers.flatMap (fun ct =>
      (if ct.snapshotKey = "" then []
       else [((⟨ResourceSnapshot, ct.ns, ct.snapshotter ++ "/" ++ ct.snapshotKey⟩ : Node),
              false)])
      ++ (labelRefs env ct.ns ct.labels).map (fun n => (n, false)))
  ++ s.images.map (fun i => (imageNode i, false))
  ++ (s.leases.filter (fun l => !leaseExpired env l)).flatMap (fun l =>
      (leaseNode l, false)
      :: ((l.resources.flatMap (resourceNode env l.ns)).map (fun n => (n, leaseFlat l))
          ++ env.collectors.flatMap (fun c =>
              (c.leased.filter (fun t => t.1 == l.ns && t.2.1 == l.id)).map
                (fun t => ((⟨c.ty, t.1, t.2.2⟩ : Node), false)))))
  ++ env.collectors.flatMap (fun c =>
      c.active.map (fun a => ((⟨c.ty, a.1, a.2⟩ : Node), false)))

def findContent (s : DBState) (n : Node) : Option ContentRecord :=
  s.contents.find? (fun c => c.ns == n.ns && c.dgst == n.key)

def findSnapshot (s : DBState) (n : Node) : Option SnapshotRecord :=
  s.snapshots.find? (fun r => r.ns == n.ns && (r.snapshotter ++ "/" ++ r.key) == n.key)

def findImage (s : DBState) (n : Node) : Option ImageRecord :=
  s.images.find? (fun i => i.ns == n.ns && i.name == n.key)

/-- The registered reference-scanning callbacks' answer for a collectible
node. -/
def collectorRefs (env : Env) (n : Node) : List Node :=
  env.collectors.flatMap (fun c =>
    if c.ty == n.ty then (c.refs.filter (fun e => e.1 == n)).flatMap (fun e => e.2)
    else [])

/-- Modelled from the spec: the outgoing edges followed by the mark phase
(§4.5 step 3) — from a content node every `gc.ref.*` label edge; from a
snapshot node its parent link (a parent of a live node is live, so the
parent is followed even in flat mode and inherits the flat flag) and, when
not flat, its label edges; from an image its target descriptor's content
and its label edges; from a collectible node its registered references.
Flat-marked nodes contribute no label or collectible edges. -/
def nodeRefs (env : Env) (s : DBState) (n : Node) (flat : Bool) : List (Node × Bool) :=
  if n.ty = ResourceContent then
    if flat then []
    else
      match findContent s n with
      | some c => (labelRefs env n.ns c.labels).map (fun m => (m, false))
      | none => []
  else if n.ty = ResourceSnapshot then
    match findSnapshot s n with
    | some r =>
      (if r.parent = "" then []
       else [((⟨ResourceSnapshot, n.ns, r.snapshotter ++ "/" ++ r.parent⟩ : Node), flat)])
      ++ (if flat then [] else (labelRefs env n.ns r.labels).map (fun m => (m, false)))
    | none => []
  else if n.ty = ResourceImage then
    match findImage s n with
    | some i =>
      ((⟨ResourceContent, n.ns, i.target⟩ : Node), false)
        :: (labelRefs env n.ns i.labels).map (fun m => (m, false))
    | none => []
  else if n.ty = ResourceLease then []
  else if flat then []
  else (collectorRefs env n).map (fun m => (m, false))

/-- Every node any `nodeRefs` call can produce: label edges and parent
links of stored records, image targets and collectible callback answers. -/
def refTargets (env : Env) (s : DBState) : List Node :=
  s.contents.flatMap (fun c => labelRefs env c.ns c.labels)
  ++ s.snapshots.flatMap (fun r =>
      (if r.parent = "" then []
       else [(⟨ResourceSnapshot, r.ns, r.snapshotter ++ "/" ++ r.parent⟩ : Node)])
      ++ labelRefs env r.ns r.labels)
  ++ s.images.flatMap (fun i =>
      (⟨ResourceContent, i.ns, i.target⟩ : Node) :: labelRefs env i.ns i.labels)
  ++ env.collectors.flatMap (fun c => c.refs.flatMap (fun e => e.2))

/-- A finite over-approximation of every (node, flag) pair the mark phase
can ever touch. -/
def gcUniverse (env : Env) (s : DBState) : Finset (Node × Bool) :=
  (rootsOf env s).toFinset
    ∪ ((refTargets env s).flatMap (fun n => [(n, false), (n, true)])).toFinset

/-- One round of breadth-first marking: keep the already-gray set and add
every node it references. -/
def markStep (env : Env) (s : DBState) (S : Finset (Node × Bool)) :
    Finset (Node × Bool) :=
  S ∪ S.biUnion (fun nb => (nodeRefs env s nb.1 nb.2).toFinset)

/-- Iterated marking from the roots. -/
def markIter (env : Env) (s : DBState) : Nat → Finset (Node × Bool)
  | 0 => (rootsOf env s).toFinset
  | n + 1 => markStep env s (markIter env s n)

/-- Enough rounds to reach the fixpoint. -/
def markFuel (env : Env) (s : DBState) : Nat := (gcUniverse env s).card + 1

/-- The mark phase's result: all (node, flag) pairs reachable from the
roots. -/
def markedPairs (env : Env) (s : DBState) : Finset (Node × Bool) :=
  markIter env s (markFuel env s)

/-- Whether a node is marked live (under either flag). -/
def markedB (env : Env) (s : DBState) (n : Node) : Bool :=
  decide ((n, false) ∈ markedPairs env s) || decide ((n, true) ∈ markedPairs env s)

/-- Modelled from the spec: the sweep phase (§4.5 step 4) — every node of
every collected kind not marked live is deleted through its owning store;
containers are roots, not collected nodes, and are untouched. -/
def sweep (env : Env) (s : DBState) : DBState :=
  { contents := s.contents.filter (fun c => markedB env s (contentNode c))
    snapshots := s.snapshots.filter (fun r => markedB env s (snapshotNode r))
    images := s.images.filter (fun i => markedB env s (imageNode i))
    containers := s.containers
    leases := s.leases.filter (fun l => markedB env s (leaseNode l))
    extras := s.extras.filter (fun n => markedB env s n) }

/-- All collected nodes a state holds. -/
def allNodes (s : DBState) : List Node :=
  s.contents.map contentNode ++ s.snapshots.map snapshotNode
  ++ s.images.map imageNode ++ s.leases.map leaseNode ++ s.extras

/-- Collection statistics (§4.5 step 5). -/
structure Stats where
  bytesFreed : Nat
  elementsRemoved : List (Nat × Nat)
deriving DecidableEq, Repr

def gcStats (env : Env) (s : DBState) : Stats :=
  { bytesFreed :=
      ((s.contents.filter (fun c => !markedB env s (contentNode c))).map (fun c => c.size)).sum
    elementsRemoved :=
      [(ResourceContent, (s.contents.filter (fun c => !markedB env s (contentNode c))).length),
       (ResourceSnapshot, (s.snapshots.filter (fun r => !markedB env s (snapshotNode r))).length),
       (ResourceImage, (s.images.filter (fun i => !markedB env s (imageNode i))).length),
       (ResourceLease, (s.leases.filter (fun l => !markedB env s (leaseNode l))).length)] }

/-- Errors a cycle can hit: transaction setup, the mark scan, the sweep
commit. -/
inductive GCErr where
  | txSetup
  | markScan
  | commitFail
deriving DecidableEq, Repr

/-- Fault injection points for one cycle. -/
structure Faults where
  atSetup : Bool
  atMark : Bool
  atCommit : Bool
deriving DecidableEq, Repr

/-- Modelled from the spec: one garbage-collection cycle (§4.5) — begin a
write transaction, mark, sweep, commit, with every phase able to fail; a
failure at any phase is returned before any new state is produced. -/
def GarbageCollect (env : Env) (f : Faults) (s : DBState) :
    Except GCErr (DBState × Stats) :=
  if f.atSetup then .error .txSetup
  else if f.atMark then .error .markScan
  else if f.atCommit then .error .commitFail
  else .ok (sweep env s, gcStats env s)

/-- Modelled from the spec: `ScheduleAndWait` (§4.5, §7) — run one cycle in
one write transaction; on any error the transaction aborts as a whole, so
the store keeps its pre-cycle state and the error goes back to the caller. -/
def ScheduleAndWait (env : Env) (f : Faults) (s : DBState) :
    DBState × Except GCErr Stats :=
  match GarbageCollect env f s with
  | .ok (s2, st) => (s2, .ok st)
  | .error e => (s, .error e)

/-- Declarative reachability of the flagged marking graph: roots are
reachable, and anything a reachable pair references is reachable. -/
inductive Reaches (env : Env) (s : DBState) : Node → Bool → Prop where
  | root {n b} : (n, b) ∈ rootsOf env s → Reaches env s n b
  | step {n b m b'} : Reaches env s n b → (m, b') ∈ nodeRefs env s n b →
      Reaches env s m b'

/-- Reachability exactly as claim C1 words it: from every root, follow
`gc.ref.*` label edges, snapshot parent links and collectible reference
callbacks unconditionally — i.e. ignoring the flat marking flag. -/
inductive ClaimReaches (env : Env) (s : DBState) : Node → Prop where
  | root {n b} : (n, b) ∈ rootsOf env s → ClaimReaches env s n
  | step {n m b'} : ClaimReaches env s n → (m, b') ∈ nodeRefs env s n false →
      ClaimReaches env s m

/-- The parent-chain relation in flat marking mode: from a flat-marked
node, the nodes reachable through flat edges (snapshot parent links only). -/
inductive ParentChain (env : Env) (s : DBState) : Node → Node → Prop where
  | refl {n} : ParentChain env s n n
  | step {r n m} : ParentChain env s r n → (m, true) ∈ nodeRefs env s n true →
      ParentChain env s r m

/-- Reachability from one lease's resource set, as claim C3 words it: the
listed resources, and everything reached from them by following reference
edges. -/
inductive FromLease (env : Env) (s : DBState) (l : LeaseRecord) : Node → Prop where
  | res {n} : n ∈ l.resources.flatMap (resourceNode env l.ns) → FromLease env s l n
  | step {n m b'} : FromLease env s l n → (m, b') ∈ nodeRefs env s n false →
      FromLease env s l m

end GC

namespace Fixtures

/-- Clock under which nothing has expired, with no registered collectible
resources. -/
def env0 : GC.Env := ⟨fun _ => false, []⟩

def cexContent1 : GC.ContentRecord :=
  ⟨"ns", "d1", 10, [("containerd.io/gc.ref.content.0", "d2")]⟩

def cexContent2 : GC.ContentRecord := ⟨"ns", "d2", 20, []⟩

/-- A flat lease listing only the content `d1`, which label-references `d2`. -/
def cexFlatLease : GC.LeaseRecord :=
  ⟨"ns", "lease-f", [("containerd.io/gc.flat", "t")], [("content", "d1")]⟩

/-- Store with two content blobs and one flat lease rooting the first. -/
def cexFlat : GC.DBState := ⟨[cexContent1, cexContent2], [], [], [], [cexFlatLease], []⟩

def d1Node : GC.Node := ⟨GC.ResourceContent, "ns", "d1"⟩

def d2Node : GC.Node := ⟨GC.ResourceContent, "ns", "d2"⟩

def snapRec1 : GC.SnapshotRecord := ⟨"ns", "sn", "k1", "", []⟩

def snapRec2 : GC.SnapshotRecord := ⟨"ns", "sn", "k2", "k1", []⟩

/-- A flat lease listing only the snapshot `k2`, whose parent is `k1`. -/
def cexFlatSnapLease : GC.LeaseRecord :=
  ⟨"ns", "lease-g", [("containerd.io/gc.flat", "t")], [("snapshots/sn", "k2")]⟩

/-- Store with the committed chain k1 ← k2 and one flat lease rooting k2. -/
def cexFlatSnap : GC.DBState := ⟨[], [snapRec1, snapRec2], [], [], [cexFlatSnapLease], []⟩

def s1Node : GC.Node := ⟨GC.ResourceSnapshot, "ns", "sn/k1"⟩

def s2Node : GC.Node := ⟨GC.ResourceSnapshot, "ns", "sn/k2"⟩

/-- An ordinary (non-flat, unexpired) lease listing the content `d1`. -/
def goodLeaseRec : GC.LeaseRecord := ⟨"ns", "lease-1", [], [("content", "d1")]⟩

/-- Store with two content blobs and one ordinary lease rooting the first. -/
def goodState : GC.DBState :=
  ⟨[cexContent1, cexContent2], [], [], [], [goodLeaseRec], []⟩

/-- Faults hitting the cycle at transaction setup. -/
def faultsSetup : GC.Faults := ⟨true, false, false⟩

/-- No faults. -/
def faultsNone : GC.Faults := ⟨false, false, false⟩

/-- chain3 after Remove("s3"). -/
def chain3after3 : Snapshots.SnapStore :=
  { records := [("s1", ⟨1, "", .committed⟩), ("s2", ⟨2, "s1", .committed⟩)]
  , parentIndex := [(1, 2)] }

/-- chain3 after Remove("s3") then Remove("s2"). -/
def chain3after2 : Snapshots.SnapStore :=
  { records := [("s1", ⟨1, "", .committed⟩)], parentIndex := [] }

/-- The empty snapshot store. -/
def chain3after1 : Snapshots.SnapStore := { records := [], parentIndex := [] }

/-- A container record with two labels, an image and a snapshot key. -/
def base0 : Containers.Container :=
  ⟨"c1", "snapkey-1", "native", "img-1", "runc", "specblob",
   [("foo", "old"), ("other", "keep")], [("e1", "x")]⟩

/-- The caller-supplied record carrying the new label value. -/
def input0 : Containers.Container :=
  ⟨"c1", "IGNORED", "IGNORED", "IGNORED", "IGNORED", "IGNORED",
   [("foo", "bar")], []⟩

/-- A label mapping returning the generic content-reference key (which ends
with '.', so every occurrence gets its index appended). -/
def lm0 : Images.Descriptor → List String :=
  fun _ => ["containerd.io/gc.ref.content."]

def desc0 : Images.Descriptor := ⟨"manifest", "dgst-p"⟩

def chA : Images.Descriptor := ⟨"layer", "dgst-a"⟩

def chB : Images.Descriptor := ⟨"layer", "dgst-b"⟩

end Fixtures

namespace TestFx

/-- The environment of db_test.go's TestMetadataCollector: nothing expired,
one registered collectible resource with type tag 0x10, reference label
"test", active node test4 and lease-3 rooting test3. -/
def envT : GC.Env :=
  ⟨fun _ => false, [⟨16, "test", [("test", "test4")], [("test", "lease-3", "test3")], []⟩]⟩

/-- The content blobs of TestMetadataCollector (digests abbreviated). -/
def contentsT : List GC.ContentRecord :=
  [⟨"test", "d1", 1, []⟩,
   ⟨"test", "d2", 2, []⟩,
   ⟨"test", "d3", 3, []⟩,
   ⟨"test", "d4", 4, [("containerd.io/gc.root", "t")]⟩,
   ⟨"test", "d5", 5, [("containerd.io/gc.ref.content.0", "d6")]⟩,
   ⟨"test", "d6", 6, []⟩,
   ⟨"test", "d7", 7, []⟩,
   ⟨"test", "d8", 8, [("containerd.io/gc.ref.content.0", "d9")]⟩,
   ⟨"test", "d9", 9, []⟩,
   ⟨"test", "d10", 10, []⟩,
   ⟨"test", "d11", 11, [("containerd.io/gc.ref.test", "test1")]⟩,
   ⟨"test", "d12", 12, [("containerd.io/gc.ref.test", "test2")]⟩]

/-- The snapshots of TestMetadataCollector. -/
def snapshotsT : List GC.SnapshotRecord :=
  [⟨"test", "native", "1", "", []⟩,
   ⟨"test", "native", "2", "1", []⟩,
   ⟨"test", "native", "3", "2", []⟩,
   ⟨"test", "native", "4", "3", []⟩,
   ⟨"test", "native", "5", "3", []⟩,
   ⟨"test", "native", "6", "", [("containerd.io/gc.ref.content.0", "d7")]⟩,
   ⟨"test", "native", "7", "", [("containerd.io/gc.ref.content.0", "d10")]⟩,
   ⟨"test", "native", "8", "7", []⟩,
   ⟨"test", "native", "9", "8", []⟩]

/-- The full object graph TestMetadataCollector creates before collecting. -/
def stateT : GC.DBState :=
  { contents := contentsT
    snapshots := snapshotsT
    images := [⟨"test", "image-1", "d2", []⟩]
    containers := [⟨"test", "1", "native", "4", []⟩]
    leases :=
      [⟨"test", "lease-1", [], [("content", "d5"), ("snapshots/native", "6")]⟩,
       ⟨"test", "lease-2", [("containerd.io/gc.flat", "t")],
        [("content", "d8"), ("snapshots/native", "9")]⟩,
       ⟨"test", "lease-3", [], [("content", "d11")]⟩]
    extras :=
      [⟨16, "random", "test1"⟩, ⟨16, "test", "test1"⟩, ⟨16, "test", "test2"⟩,
       ⟨16, "test", "test3"⟩, ⟨16, "test", "test4"⟩] }

/-- The survivors db_test.go expects: blobs 1, 3, 9, 10, 12, snapshot 5,
node random/test1 and node test2 are collected; everything else stays. -/
def expectedT : GC.DBState :=
  { contents := contentsT.filter (fun c =>
      !(c.dgst == "d1" || c.dgst == "d3" || c.dgst == "d9" || c.dgst == "d10"
        || c.dgst == "d12"))
    snapshots := snapshotsT.filter (fun r => !(r.key == "5"))
    images := stateT.images
    containers := stateT.containers
    leases := stateT.leases
    extras := [⟨16, "test", "test1"⟩, ⟨16, "test", "test3"⟩, ⟨16, "test", "test4"⟩] }

end TestFx


namespace Util

theorem strDropPre_append (pre rest : List Char) :
    strDropPre pre (pre ++ rest) = some rest := by
  induction pre with
  | nil => simp [strDropPre]
  | cons p ps ih => simp [strDropPre, ih]

theorem lookupS_setAssoc (l : List (String × String)) (k v q : String) :
    lookupS (setAssoc l k v) q = if q = k then some v else lookupS l q := by
  induction l with
  | nil =>
    by_cases h : q = k <;> simp [setAssoc, lookupS, h]
    · intro h2
      exact absurd h2.symm h
  | cons a rest ih =>
    by_cases hak : a.1 = k
    · by_cases hq : q = k
      · simp [setAssoc, lookupS, hak, hq]
      · have hkq : ¬ (k = q) := fun h2 => hq h2.symm
        have haq : ¬ (a.1 = q) := by rw [hak]; exact hkq
        simp [setAssoc, lookupS, hak, hq, hkq, haq]
    · by_cases haq : a.1 = q
      · have hqk : ¬ (q = k) := fun h2 => hak ((haq.trans h2))
        simp [setAssoc, lookupS, hak, haq, hqk]
      · simp [setAssoc, lookupS, hak, haq, ih]

theorem lookupD_setAssocN (l : List (String × Nat)) (k : String) (v : Nat) (q : String) :
    lookupD (setAssocN l k v) q = if q = k then v else lookupD l q := by
  induction l with
  | nil =>
    by_cases h : q = k <;> simp [setAssocN, lookupD, h]
    · intro h2
      exact absurd h2.symm h
  | cons a rest ih =>
    by_cases hak : a.1 = k
    · by_cases hq : q = k
      · simp [setAssocN, lookupD, hak, hq]
      · have hkq : ¬ (k = q) := fun h2 => hq h2.symm
        have haq : ¬ (a.1 = q) := by rw [hak]; exact hkq
        simp [setAssocN, lookupD, hak, hq, hkq, haq]
    · by_cases haq : a.1 = q
      · have hqk : ¬ (q = k) := fun h2 => hak ((haq.trans h2))
        simp [setAssocN, lookupD, hak, haq, hqk]
      · simp [setAssocN, lookupD, hak, haq, ih]

end Util

theorem initGo_eq_drop {P : Type} (v : Nat) (ms : List (P → P)) :
    ∀ (i : Nat) (p : P),
      Metadata.initGo v i ms p = Metadata.applyMigrations (ms.drop (v - i)) p := by
  induction ms with
  | nil => intro i p; simp [Metadata.initGo, Metadata.applyMigrations]
  | cons m ms ih =>
    intro i p
    by_cases h : v ≤ i
    · have h0 : v - i = 0 := Nat.sub_eq_zero_of_le h
      have h1 : v - (i + 1) = 0 := Nat.sub_eq_zero_of_le (Nat.le_succ_of_le h)
      simp only [Metadata.initGo, h, if_pos, ih (i + 1) (m p), h0, h1,
        List.drop_zero, Metadata.applyMigrations, List.foldl_cons]
    · have h1 : v - i = (v - (i + 1)) + 1 := by omega
      simp only [Metadata.initGo, h, if_neg, not_false_iff, ih (i + 1) p, h1,
        List.drop_succ_cons]

/-- Claim C7: on Init the stored schema version is read and exactly the
migrations whose index is at least that version are applied, in list order
(equivalently: the suffix of the migration list from the stored version),
and the persisted version afterwards equals the current dbVersion — also
on a fresh database, whose stored version is 0. -/
theorem c7_initMigrations {P : Type} (migs : List (P → P)) (db : Metadata.MetaDB P) :
    (Metadata.Init migs db).version = Metadata.dbVersionOf migs
    ∧ (Metadata.Init migs db).payload
        = Metadata.applyMigrations (migs.drop db.version) db.payload := by
  refine ⟨rfl, ?_⟩
  show Metadata.initGo db.version 0 migs db.payload = _
  rw [initGo_eq_drop]
  simp

/-- Claim C5: any error during a GC cycle (transaction setup, mark, or
sweep commit) aborts the whole write transaction — ScheduleAndWait hands
back the unchanged pre-cycle store state together with that error. -/
theorem c5_gcAborts (env : GC.Env) (f : GC.Faults) (s : GC.DBState) (e : GC.GCErr)
    (h : GC.GarbageCollect env f s = .error e) :
    GC.ScheduleAndWait env f s = (s, .error e) := by
  unfold GC.ScheduleAndWait
  rw [h]

theorem c5_witness :
    GC.GarbageCollect Fixtures.env0 Fixtures.faultsSetup Fixtures.cexFlat
      = .error .txSetup
    ∧ GC.ScheduleAndWait Fixtures.env0 Fixtures.faultsSetup Fixtures.cexFlat
      = (Fixtures.cexFlat, .error .txSetup) :=
  ⟨rfl, c5_gcAborts Fixtures.env0 Fixtures.faultsSetup Fixtures.cexFlat GC.GCErr.txSetup rfl⟩

/-- Claim C9: the images service's Delete runs the store delete first and
returns its error (through ToGRPC) without any GC when it fails; it calls
ScheduleAndWait exactly when Sync is set and the delete succeeded, and
propagates the ScheduleAndWait error to the caller. -/
theorem c9_imagesDelete {E : Type} (toGRPC : E → E) (sd : Option E) (sync : Bool)
    (gcRes : Option E) :
    (∀ e, sd = some e →
      ImagesService.localDelete toGRPC sd sync gcRes = (some (toGRPC e), false))
    ∧ ((ImagesService.localDelete toGRPC sd sync gcRes).2 = true
        ↔ sd = none ∧ sync = true)
    ∧ (sd = none → sync = true →
        (ImagesService.localDelete toGRPC sd sync gcRes).1 = gcRes)
    ∧ (sd = none → sync = false →
        ImagesService.localDelete toGRPC sd sync gcRes = (none, false)) := by
  cases sd <;> cases sync <;> cases gcRes <;>
    simp [ImagesService.localDelete]

theorem c9_witness :
    ImagesService.localDelete (fun n => n + 1 : Nat → Nat) (some 7) true none
      = (some 8, false) :=
  (c9_imagesDelete (fun n => n + 1 : Nat → Nat) (some 7) true none).1 7 rfl

theorem getRecord_mem {s : Snapshots.SnapStore} {key : String} {r : Snapshots.SnapRecord}
    (h : Snapshots.getRecord s key = some r) : (key, r) ∈ s.records := by
  unfold Snapshots.getRecord at h
  cases hf : s.records.find? (fun kr => kr.1 == key) with
  | none => rw [hf] at h; simp at h
  | some a =>
    rw [hf] at h
    simp only [Option.map_some'] at h
    have hm := List.mem_of_find?_eq_some hf
    have hp : a.1 = key := by simpa using List.find?_some hf
    have ha : a = (key, r) := by
      cases a
      simp_all
    rw [← ha]
    exact hm

/-- Claim C6: a container Update with the single field path "labels.k"
mutates exactly that label key: the result is returned successfully and
every other field — id, snapshot key, snapshotter, image, runtime, spec,
extensions — and every other label key keep their previous values. -/
theorem c6_updateLabelPath (base input : Containers.Container) (k : String) :
    ∃ c2, Containers.Update base input ["labels." ++ k] = .ok c2
      ∧ c2.id = base.id ∧ c2.snapshotKey = base.snapshotKey
      ∧ c2.snapshotter = base.snapshotter ∧ c2.image = base.image
      ∧ c2.runtimeName = base.runtimeName ∧ c2.spec = base.spec
      ∧ c2.extensions = base.extensions
      ∧ Util.lookupS c2.labels k = some (Util.lookupSD input.labels k)
      ∧ (∀ q, q ≠ k → Util.lookupS c2.labels q = Util.lookupS base.labels q) := by
  have hpath : ("labels." ++ k).toList = "labels.".toList ++ k.toList := by
    simp [String.toList]
  have happ : Containers.applyPath input base ("labels." ++ k)
      = .ok { base with
              labels := Util.setAssoc base.labels k (Util.lookupSD input.labels k) } := by
    unfold Containers.applyPath
    rw [hpath, Util.strDropPre_append]
    rfl
  have hupd : Containers.Update base input ["labels." ++ k]
      = .ok { base with
              labels := Util.setAssoc base.labels k (Util.lookupSD input.labels k) } := by
    unfold Containers.Update
    simp [List.foldlM, happ]
  refine ⟨_, hupd, rfl, rfl, rfl, rfl, rfl, rfl, rfl, ?_, ?_⟩
  · simp [Util.lookupS_setAssoc]
  · intro q hq
    simp [Util.lookupS_setAssoc, hq]

theorem c6_witness :
    ∃ c2, Containers.Update Fixtures.base0 Fixtures.input0 ["labels.foo"] = .ok c2
      ∧ c2.snapshotKey = Fixtures.base0.snapshotKey
      ∧ c2.image = Fixtures.base0.image
      ∧ Util.lookupS c2.labels "foo" = some "bar"
      ∧ Util.lookupS c2.labels "other" = some "keep" := by
  obtain ⟨c2, h1, _, h2, _, h3, _, _, _, h4, h5⟩ :=
    c6_updateLabelPath Fixtures.base0 Fixtures.input0 "foo"
  exact ⟨c2, h1, h2, h3, by rw [h4]; rfl, by rw [h5 "other" (by decide)]; rfl⟩

/-- Claim C4: snapshot Remove fails FailedPrecondition whenever the
parent→child index records a child of the snapshot's id; when it succeeds,
no record with `parent == key` remains; on the committed chain s1 ← s2 ← s3,
Remove(s1) fails FailedPrecondition while s2 exists, and removing s3, s2,
s1 in leaf-first order succeeds. -/
theorem c4_snapshotRemove (s : Snapshots.SnapStore) (key : String)
    (wf : Snapshots.WellFormed s) :
    (∀ r, Snapshots.getRecord s key = some r →
        (∃ e ∈ s.parentIndex, e.1 = r.id) →
        Snapshots.Remove s key = .error .failedPrecondition)
    ∧ (∀ s2 i kd, Snapshots.Remove s key = .ok (s2, i, kd) →
        ∀ p ∈ s2.records, p.2.parent ≠ key)
    ∧ (Snapshots.Remove Snapshots.chain3 "s1" = .error .failedPrecondition
        ∧ Snapshots.Remove Snapshots.chain3 "s3"
            = .ok (Fixtures.chain3after3, 3, .committed)
        ∧ Snapshots.Remove Fixtures.chain3after3 "s2"
            = .ok (Fixtures.chain3after2, 2, .committed)
        ∧ Snapshots.Remove Fixtures.chain3after2 "s1"
            = .ok (Fixtures.chain3after1, 1, .committed)) := by
  refine ⟨?_, ?_, by decide, by decide, by decide, by decide⟩
  · rintro r hr ⟨e, he, hid⟩
    unfold Snapshots.Remove
    rw [hr]
    have hany : s.parentIndex.any (fun x => x.1 == r.id) = true :=
      List.any_eq_true.mpr ⟨e, he, by simpa using hid⟩
    simp [hany]
  · intro s2 i kd h p hp hpar
    unfold Snapshots.Remove at h
    cases hg : Snapshots.getRecord s key with
    | none => rw [hg] at h; exact absurd h (by simp)
    | some r =>
      rw [hg] at h
      by_cases hany : (s.parentIndex.any fun e => e.1 == r.id) = true
      · simp [hany] at h
      · simp only [hany, if_false, Bool.false_eq_true, reduceIte, Except.ok.injEq,
          Prod.mk.injEq] at h
        obtain ⟨h1, h2, h3⟩ := h
        have hpmem : p ∈ s.records := by
          have hp2 : p ∈ s2.records := hp
          rw [← h1] at hp2
          exact (List.mem_filter.mp hp2).1
        have hkey : (key, r) ∈ s.records := getRecord_mem hg
        have hidx : (r.id, p.2.id) ∈ s.parentIndex :=
          wf.2.2.2 p hpmem (key, r) hkey hpar
        exact hany (List.any_eq_true.mpr ⟨(r.id, p.2.id), hidx, by simp⟩)

theorem c4_witness :
    Snapshots.WellFormed Snapshots.chain3
    ∧ Snapshots.Remove Snapshots.chain3 "s1" = .error .failedPrecondition :=
  ⟨by decide, (c4_snapshotRemove Snapshots.chain3 "s1" (by decide)).2.2.1⟩

theorem pairStep_chars (pairs : List (String × String)) :
    ∀ (st : Images.LabelAcc) (prev : List String),
      (∀ q, Util.lookupD st.keys q = prev.count q) →
      (pairs.foldl Images.pairStep st).labels
        = Images.insertAll st.labels (Images.effPairs prev pairs)
      ∧ (pairs.foldl Images.pairStep st).fields
        = st.fields ++ (Images.effPairs prev pairs).map (fun p => "labels." ++ p.1) := by
  induction pairs with
  | nil =>
    intro st prev h
    simp [Images.effPairs, Images.insertAll]
  | cons pr rest ih =>
    intro st prev h
    obtain ⟨k, d⟩ := pr
    have hidx : Util.lookupD st.keys k = prev.count k := h k
    have hinv : ∀ q,
        Util.lookupD (Util.setAssocN st.keys k (Util.lookupD st.keys k + 1)) q
          = (prev ++ [k]).count q := by
      intro q
      rw [Util.lookupD_setAssocN]
      by_cases hq : q = k
      · subst hq
        simp [hidx, List.count_append]
      · simp [hq, h q, List.count_append]
    have hrec := ih (Images.pairStep st (k, d)) (prev ++ [k]) hinv
    have hkey2 : (if Util.lookupD st.keys k > 0 ∨ Images.endsWithDot k
          then k ++ toString (Util.lookupD st.keys k) else k) = Images.effKey prev k := by
      rw [hidx]
      rfl
    have hlab : (Images.pairStep st (k, d)).labels
        = Util.setAssoc st.labels (Images.effKey prev k) d := by
      simp only [Images.pairStep]
      rw [hkey2]
    have hfld : (Images.pairStep st (k, d)).fields
        = st.fields ++ ["labels." ++ Images.effKey prev k] := by
      simp only [Images.pairStep]
      rw [hkey2]
    constructor
    · rw [List.foldl_cons, hrec.1, hlab]
      simp [Images.effPairs, Images.insertAll]
    · rw [List.foldl_cons, hrec.2, hfld]
      simp [Images.effPairs]

/-- Claim C8: when the wrapped handler returns children for a descriptor,
SetChildrenMappedLabels issues exactly one content-store Update on that
descriptor's digest, whose label map records each child's digest under its
effective GC-reference key (the occurrence index is appended exactly when
the key was already used earlier or ends with '.') and whose field-path
list is exactly "labels.key" for each such key in order; with no children,
no Update is issued. -/
theorem c8_setChildrenLabels (labelMap : Images.Descriptor → List String)
    (desc : Images.Descriptor) (children : List Images.Descriptor) :
    (children = [] → Images.SetChildrenMappedLabels labelMap desc children = none)
    ∧ (children ≠ [] →
        Images.SetChildrenMappedLabels labelMap desc children
          = some ⟨desc.digest,
              Images.insertAll [] (Images.effPairs [] (Images.childPairs labelMap children)),
              (Images.effPairs [] (Images.childPairs labelMap children)).map
                (fun p => "labels." ++ p.1)⟩) := by
  constructor
  · intro h
    subst h
    rfl
  · intro h
    have hmain := pairStep_chars (Images.childPairs labelMap children)
      ⟨[], [], []⟩ [] (fun q => rfl)
    unfold Images.SetChildrenMappedLabels
    rw [if_neg (by simpa using h)]
    show (some ⟨desc.digest,
        ((Images.childPairs labelMap children).foldl Images.pairStep ⟨[], [], []⟩).labels,
        ((Images.childPairs labelMap children).foldl Images.pairStep ⟨[], [], []⟩).fields⟩
        : Option Images.UpdateCall) = _
    rw [hmain.1, hmain.2]
    simp [Images.insertAll]

theorem c8_witness :
    Images.SetChildrenMappedLabels Fixtures.lm0 Fixtures.desc0
        [Fixtures.chA, Fixtures.chB]
      = some ⟨"dgst-p",
          [("containerd.io/gc.ref.content.0", "dgst-a"),
           ("containerd.io/gc.ref.content.1", "dgst-b")],
          ["labels.containerd.io/gc.ref.content.0",
           "labels.containerd.io/gc.ref.content.1"]⟩ := by
  have h := (c8_setChildrenLabels Fixtures.lm0 Fixtures.desc0
      [Fixtures.chA, Fixtures.chB]).2 (by decide)
  rw [h]
  rfl

theorem findContent_spec {s : GC.DBState} {n : GC.Node} {c : GC.ContentRecord}
    (h : GC.findContent s n = some c) :
    c ∈ s.contents ∧ c.ns = n.ns := by
  refine ⟨List.mem_of_find?_eq_some h, ?_⟩
  have hp := List.find?_some h
  simp only [Bool.and_eq_true, beq_iff_eq] at hp
  exact hp.1

theorem findSnapshot_spec {s : GC.DBState} {n : GC.Node} {r : GC.SnapshotRecord}
    (h : GC.findSnapshot s n = some r) :
    r ∈ s.snapshots ∧ r.ns = n.ns := by
  refine ⟨List.mem_of_find?_eq_some h, ?_⟩
  have hp := List.find?_some h
  simp only [Bool.and_eq_true, beq_iff_eq] at hp
  exact hp.1

theorem findImage_spec {s : GC.DBState} {n : GC.Node} {i : GC.ImageRecord}
    (h : GC.findImage s n = some i) :
    i ∈ s.images ∧ i.ns = n.ns := by
  refine ⟨List.mem_of_find?_eq_some h, ?_⟩
  have hp := List.find?_some h
  simp only [Bool.and_eq_true, beq_iff_eq] at hp
  exact hp.1

theorem refs_fst_mem {env : GC.Env} {s : GC.DBState} {n : GC.Node} {b : Bool}
    {x : GC.Node × Bool} (hx : x ∈ GC.nodeRefs env s n b) :
    x.1 ∈ GC.refTargets env s := by
  unfold GC.nodeRefs at hx
  unfold GC.refTargets
  simp only [List.mem_append, List.mem_flatMap]
  by_cases h1 : n.ty = GC.ResourceContent
  · rw [if_pos h1] at hx
    cases hb : b with
    | true => rw [hb] at hx; simp at hx
    | false =>
      rw [hb] at hx
      simp only [Bool.false_eq_true, if_false, reduceIte] at hx
      cases hf : GC.findContent s n with
      | none => rw [hf] at hx; simp at hx
      | some c =>
        rw [hf] at hx
        obtain ⟨hmem, hns⟩ := findContent_spec hf
        obtain ⟨m, hm, rfl⟩ := List.mem_map.mp hx
        exact Or.inl (Or.inl (Or.inl ⟨c, hmem, by rw [hns]; exact hm⟩))
  · rw [if_neg h1] at hx
    by_cases h2 : n.ty = GC.ResourceSnapshot
    · rw [if_pos h2] at hx
      cases hf : GC.findSnapshot s n with
      | none => rw [hf] at hx; simp at hx
      | some r =>
        rw [hf] at hx
        obtain ⟨hmem, hns⟩ := findSnapshot_spec hf
        rw [List.mem_append] at hx
        cases hx with
        | inl hp =>
          by_cases hpar : r.parent = ""
          · rw [if_pos hpar] at hp; simp at hp
          · rw [if_neg hpar] at hp
            simp only [List.mem_singleton] at hp
            refine Or.inl (Or.inl (Or.inr ⟨r, hmem, Or.inl ?_⟩))
            rw [if_neg hpar, hp]
            simp [hns]
        | inr hl =>
          by_cases hb : b = true
          · rw [if_pos hb] at hl; simp at hl
          · rw [if_neg hb] at hl
            obtain ⟨m, hm, rfl⟩ := List.mem_map.mp hl
            exact Or.inl (Or.inl (Or.inr ⟨r, hmem, Or.inr (by rw [hns]; exact hm)⟩))
    · rw [if_neg h2] at hx
      by_cases h3 : n.ty = GC.ResourceImage
      · rw [if_pos h3] at hx
        cases hf : GC.findImage s n with
        | none => rw [hf] at hx; simp at hx
        | some i =>
          rw [hf] at hx
          obtain ⟨hmem, hns⟩ := findImage_spec hf
          rw [List.mem_cons] at hx
          cases hx with
          | inl hp =>
            refine Or.inl (Or.inr ⟨i, hmem, ?_⟩)
            rw [List.mem_cons]
            rw [hp]
            simp [hns]
          | inr hl =>
            obtain ⟨m, hm, rfl⟩ := List.mem_map.mp hl
            refine Or.inl (Or.inr ⟨i, hmem, ?_⟩)
            rw [List.mem_cons]
            exact Or.inr (by rw [hns]; exact hm)
      · rw [if_neg h3] at hx
        by_cases h4 : n.ty = GC.ResourceLease
        · rw [if_pos h4] at hx; simp at hx
        · rw [if_neg h4] at hx
          by_cases hb : b = true
          · rw [if_pos hb] at hx; simp at hx
          · rw [if_neg hb] at hx
            obtain ⟨m, hm, rfl⟩ := List.mem_map.mp hx
            unfold GC.collectorRefs at hm
            obtain ⟨c, hc, hmc⟩ := List.mem_flatMap.mp hm
            by_cases hty : (c.ty == n.ty) = true
            · rw [if_pos hty] at hmc
              obtain ⟨e, he, hme⟩ := List.mem_flatMap.mp hmc
              have he2 : e ∈ c.refs := (List.mem_filter.mp he).1
              exact Or.inr ⟨c, hc, e, he2, hme⟩
            · rw [if_neg hty] at hmc
              simp at hmc

theorem roots_sub_univ {env : GC.Env} {s : GC.DBState} {x : GC.Node × Bool}
    (hx : x ∈ GC.rootsOf env s) : x ∈ GC.gcUniverse env s := by
  unfold GC.gcUniverse
  exact Finset.mem_union_left _ (List.mem_toFinset.mpr hx)

theorem refs_sub_univ {env : GC.Env} {s : GC.DBState} {n : GC.Node} {b : Bool}
    {x : GC.Node × Bool} (hx : x ∈ GC.nodeRefs env s n b) :
    x ∈ GC.gcUniverse env s := by
  unfold GC.gcUniverse
  refine Finset.mem_union_right _ (List.mem_toFinset.mpr ?_)
  rw [List.mem_flatMap]
  refine ⟨x.1, refs_fst_mem hx, ?_⟩
  obtain ⟨m, b2⟩ := x
  cases b2 <;> simp

theorem markIter_succ_sub (env : GC.Env) (s : GC.DBState) (k : Nat) :
    GC.markIter env s k ⊆ GC.markIter env s (k + 1) := by
  intro x hx
  exact Finset.mem_union_left _ hx

theorem markIter_mono (env : GC.Env) (s : GC.DBState) {k m : Nat} (h : k ≤ m) :
    GC.markIter env s k ⊆ GC.markIter env s m := by
  induction h with
  | refl => exact subset_rfl
  | step _ ih => exact ih.trans (markIter_succ_sub env s _)

theorem markIter_sub_univ (env : GC.Env) (s : GC.DBState) (k : Nat) :
    GC.markIter env s k ⊆ GC.gcUniverse env s := by
  induction k with
  | zero => intro x hx; exact roots_sub_univ (List.mem_toFinset.mp hx)
  | succ k ih =>
    intro x hx
    rcases Finset.mem_union.mp hx with h | h
    · exact ih h
    · obtain ⟨nb, _, hx2⟩ := Finset.mem_biUnion.mp h
      exact refs_sub_univ (List.mem_toFinset.mp hx2)

theorem markIter_stab (env : GC.Env) (s : GC.DBState) {k : Nat}
    (h : GC.markIter env s (k + 1) = GC.markIter env s k) :
    ∀ m, k ≤ m → GC.markIter env s m = GC.markIter env s k := by
  intro m hm
  induction hm with
  | refl => rfl
  | step _ ih =>
    show GC.markStep env s (GC.markIter env s _) = _
    rw [ih]
    exact h

theorem markIter_card_ge (env : GC.Env) (s : GC.DBState) :
    ∀ k, (∀ j, j < k → GC.markIter env s (j + 1) ≠ GC.markIter env s j) →
      k ≤ (GC.markIter env s k).card := by
  intro k
  induction k with
  | zero => intro _; exact Nat.zero_le _
  | succ k ih =>
    intro h
    have hk : k ≤ (GC.markIter env s k).card :=
      ih (fun j hj => h j (Nat.lt_succ_of_lt hj))
    have hss : GC.markIter env s k ⊂ GC.markIter env s (k + 1) :=
      Finset.ssubset_iff_subset_ne.mpr
        ⟨markIter_succ_sub env s k, fun he => h k (Nat.lt_succ_self k) he.symm⟩
    have := Finset.card_lt_card hss
    omega

theorem markStep_fix (env : GC.Env) (s : GC.DBState) :
    GC.markStep env s (GC.markedPairs env s) = GC.markedPairs env s := by
  by_cases hstab : ∃ j, j < GC.markFuel env s
      ∧ GC.markIter env s (j + 1) = GC.markIter env s j
  · obtain ⟨j, hj, hfix⟩ := hstab
    have h1 : GC.markIter env s (GC.markFuel env s) = GC.markIter env s j :=
      markIter_stab env s hfix _ (Nat.le_of_lt hj)
    have h2 : GC.markIter env s (GC.markFuel env s + 1) = GC.markIter env s j :=
      markIter_stab env s hfix _ (by omega)
    show GC.markIter env s (GC.markFuel env s + 1) = GC.markedPairs env s
    unfold GC.markedPairs
    rw [h1, h2]
  · push_neg at hstab
    have hge := markIter_card_ge env s (GC.markFuel env s) (fun j hj => hstab j hj)
    have hle : (GC.markIter env s (GC.markFuel env s)).card ≤ (GC.gcUniverse env s).card :=
      Finset.card_le_card (markIter_sub_univ env s _)
    have hfuel : GC.markFuel env s = (GC.gcUniverse env s).card + 1 := rfl
    omega

theorem markIter_reaches (env : GC.Env) (s : GC.DBState) :
    ∀ k x, x ∈ GC.markIter env s k → GC.Reaches env s x.1 x.2 := by
  intro k
  induction k with
  | zero =>
    intro x hx
    exact GC.Reaches.root (List.mem_toFinset.mp hx)
  | succ k ih =>
    intro x hx
    rcases Finset.mem_union.mp hx with h | h
    · exact ih x h
    · obtain ⟨nb, hnb, hx2⟩ := Finset.mem_biUnion.mp h
      exact GC.Reaches.step (ih nb hnb) (List.mem_toFinset.mp hx2)

theorem reaches_marked {env : GC.Env} {s : GC.DBState} {n : GC.Node} {b : Bool}
    (h : GC.Reaches env s n b) : (n, b) ∈ GC.markedPairs env s := by
  induction h with
  | root hr =>
    exact markIter_mono env s (Nat.zero_le _) (List.mem_toFinset.mpr hr)
  | step _ href ih =>
    have hm : _ ∈ GC.markStep env s (GC.markedPairs env s) :=
      Finset.mem_union_right _
        (Finset.mem_biUnion.mpr ⟨_, ih, List.mem_toFinset.mpr href⟩)
    rw [markStep_fix env s] at hm
    exact hm

theorem markedB_iff (env : GC.Env) (s : GC.DBState) (n : GC.Node) :
    GC.markedB env s n = true ↔ ∃ b, GC.Reaches env s n b := by
  unfold GC.markedB
  rw [Bool.or_eq_true, decide_eq_true_eq, decide_eq_true_eq]
  constructor
  · rintro (h | h)
    · exact ⟨false, markIter_reaches env s _ (n, false) h⟩
    · exact ⟨true, markIter_reaches env s _ (n, true) h⟩
  · rintro ⟨b, hb⟩
    cases b
    · exact Or.inl (reaches_marked hb)
    · exact Or.inr (reaches_marked hb)

theorem mem_allNodes_sweep (env : GC.Env) (s : GC.DBState) (n : GC.Node) :
    n ∈ GC.allNodes (GC.sweep env s)
      ↔ n ∈ GC.allNodes s ∧ GC.markedB env s n = true := by
  unfold GC.allNodes GC.sweep
  simp only [List.mem_append, List.mem_map, List.mem_filter]
  constructor
  · rintro ((((⟨c, ⟨hc, hm⟩, rfl⟩ | ⟨r, ⟨hr, hm⟩, rfl⟩) | ⟨i, ⟨hi, hm⟩, rfl⟩)
      | ⟨l, ⟨hl, hm⟩, rfl⟩) | ⟨hn, hm⟩)
    · exact ⟨Or.inl (Or.inl (Or.inl (Or.inl ⟨c, hc, rfl⟩))), hm⟩
    · exact ⟨Or.inl (Or.inl (Or.inl (Or.inr ⟨r, hr, rfl⟩))), hm⟩
    · exact ⟨Or.inl (Or.inl (Or.inr ⟨i, hi, rfl⟩)), hm⟩
    · exact ⟨Or.inl (Or.inr ⟨l, hl, rfl⟩), hm⟩
    · exact ⟨Or.inr hn, hm⟩
  · rintro ⟨((((⟨c, hc, rfl⟩ | ⟨r, hr, rfl⟩) | ⟨i, hi, rfl⟩) | ⟨l, hl, rfl⟩) | hn), hm⟩
    · exact Or.inl (Or.inl (Or.inl (Or.inl ⟨c, ⟨hc, hm⟩, rfl⟩)))
    · exact Or.inl (Or.inl (Or.inl (Or.inr ⟨r, ⟨hr, hm⟩, rfl⟩)))
    · exact Or.inl (Or.inl (Or.inr ⟨i, ⟨hi, hm⟩, rfl⟩))
    · exact Or.inl (Or.inr ⟨l, ⟨hl, hm⟩, rfl⟩)
    · exact Or.inr ⟨hn, hm⟩

theorem refs_false_flag {env : GC.Env} {s : GC.DBState} {n : GC.Node} :
    ∀ x ∈ GC.nodeRefs env s n false, x.2 = false := by
  intro x hx
  unfold GC.nodeRefs at hx
  by_cases h1 : n.ty = GC.ResourceContent
  · rw [if_pos h1] at hx
    simp only [Bool.false_eq_true, if_false, reduceIte] at hx
    cases hf : GC.findContent s n with
    | none => rw [hf] at hx; simp at hx
    | some c =>
      rw [hf] at hx
      obtain ⟨m, _, rfl⟩ := List.mem_map.mp hx
      rfl
  · rw [if_neg h1] at hx
    by_cases h2 : n.ty = GC.ResourceSnapshot
    · rw [if_pos h2] at hx
      cases hf : GC.findSnapshot s n with
      | none => rw [hf] at hx; simp at hx
      | some r =>
        rw [hf] at hx
        rw [List.mem_append] at hx
        cases hx with
        | inl hp =>
          by_cases hpar : r.parent = ""
          · rw [if_pos hpar] at hp; simp at hp
          · rw [if_neg hpar] at hp
            simp only [List.mem_singleton] at hp
            rw [hp]
        | inr hl =>
          simp only [Bool.false_eq_true, if_false, reduceIte] at hl
          obtain ⟨m, _, rfl⟩ := List.mem_map.mp hl
          rfl
    · rw [if_neg h2] at hx
      by_cases h3 : n.ty = GC.ResourceImage
      · rw [if_pos h3] at hx
        cases hf : GC.findImage s n with
        | none => rw [hf] at hx; simp at hx
        | some i =>
          rw [hf] at hx
          rw [List.mem_cons] at hx
          cases hx with
          | inl hp => rw [hp]
          | inr hl =>
            obtain ⟨m, _, rfl⟩ := List.mem_map.mp hl
            rfl
      · rw [if_neg h3] at hx
        by_cases h4 : n.ty = GC.ResourceLease
        · rw [if_pos h4] at hx; simp at hx
        · rw [if_neg h4] at hx
          simp only [Bool.false_eq_true, if_false, reduceIte] at hx
          obtain ⟨m, _, rfl⟩ := List.mem_map.mp hx
          rfl

theorem refs_true_flag {env : GC.Env} {s : GC.DBState} {n : GC.Node} {b : Bool}
    {m : GC.Node} (h : (m, true) ∈ GC.nodeRefs env s n b) : b = true := by
  cases hb : b
  · rw [hb] at h
    have h2 := refs_false_flag (m, true) h
    simp at h2
  · rfl

theorem flatRoot_iff (env : GC.Env) (s : GC.DBState) (r : GC.Node) :
    (r, true) ∈ GC.rootsOf env s ↔
      ∃ l ∈ s.leases, GC.leaseExpired env l = false ∧ GC.leaseFlat l = true
        ∧ r ∈ l.resources.flatMap (GC.resourceNode env l.ns) := by
  unfold GC.rootsOf
  constructor
  · intro h
    simp only [List.mem_append] at h
    rcases h with (((h | h) | h) | h) | h
    · obtain ⟨c, _, hc⟩ := List.mem_map.mp h
      exact absurd (congrArg Prod.snd hc) (by simp)
    · obtain ⟨ct, _, h2⟩ := List.mem_flatMap.mp h
      rw [List.mem_append] at h2
      rcases h2 with h2 | h2
      · by_cases hk : ct.snapshotKey = ""
        · rw [if_pos hk] at h2
          simp at h2
        · rw [if_neg hk] at h2
          simp only [List.mem_singleton] at h2
          exact absurd (congrArg Prod.snd h2) (by simp)
      · obtain ⟨m, _, hc⟩ := List.mem_map.mp h2
        exact absurd (congrArg Prod.snd hc) (by simp)
    · obtain ⟨i, _, hc⟩ := List.mem_map.mp h
      exact absurd (congrArg Prod.snd hc) (by simp)
    · obtain ⟨l, hlf, h2⟩ := List.mem_flatMap.mp h
      have hl : l ∈ s.leases := (List.mem_filter.mp hlf).1
      have hexp : GC.leaseExpired env l = false := by
        have := (List.mem_filter.mp hlf).2
        simpa using this
      rw [List.mem_cons] at h2
      rcases h2 with h2 | h2
      · exact absurd (congrArg Prod.snd h2) (by simp)
      · rw [List.mem_append] at h2
        rcases h2 with h2 | h2
        · obtain ⟨m, hm, hc⟩ := List.mem_map.mp h2
          have hr2 : m = r := congrArg Prod.fst hc
          exact ⟨l, hl, hexp, congrArg Prod.snd hc, hr2 ▸ hm⟩
        · obtain ⟨c, _, h3⟩ := List.mem_flatMap.mp h2
          obtain ⟨t, _, hc⟩ := List.mem_map.mp h3
          exact absurd (congrArg Prod.snd hc) (by simp)
    · obtain ⟨c, _, h2⟩ := List.mem_flatMap.mp h
      obtain ⟨a, _, hc⟩ := List.mem_map.mp h2
      exact absurd (congrArg Prod.snd hc) (by simp)
  · rintro ⟨l, hl, hexp, hflat, hmem⟩
    simp only [List.mem_append]
    refine Or.inl (Or.inr (List.mem_flatMap.mpr
      ⟨l, List.mem_filter.mpr ⟨hl, by simp [hexp]⟩, ?_⟩))
    rw [List.mem_cons]
    refine Or.inr ?_
    rw [List.mem_append]
    exact Or.inl (List.mem_map.mpr ⟨r, hmem, by rw [hflat]⟩)

theorem reaches_true_chain {env : GC.Env} {s : GC.DBState} :
    ∀ {m : GC.Node} {b : Bool}, GC.Reaches env s m b → b = true →
      ∃ r, (r, true) ∈ GC.rootsOf env s ∧ GC.ParentChain env s r m := by
  intro m b h
  induction h with
  | root hr =>
    intro hb
    subst hb
    exact ⟨_, hr, GC.ParentChain.refl⟩
  | step _ href ih =>
    intro hb
    subst hb
    have hb0 := refs_true_flag href
    obtain ⟨r, hroot, hchain⟩ := ih hb0
    subst hb0
    exact ⟨r, hroot, GC.ParentChain.step hchain href⟩

theorem chain_reaches {env : GC.Env} {s : GC.DBState} {r n : GC.Node}
    (hroot : (r, true) ∈ GC.rootsOf env s) (hc : GC.ParentChain env s r n) :
    GC.Reaches env s n true := by
  induction hc with
  | refl => exact GC.Reaches.root hroot
  | step _ href ih => exact GC.Reaches.step ih href

/-- Claim C1 (amended): a GC cycle removes a node if and only if it is not
reachable from the roots, and every reachable node of every kind survives —
where the roots are as the claim lists them, and reachability follows
`gc.ref.*` labels, snapshot parent links and collectible reference
callbacks, except that the resources a `gc.flat`-labeled lease lists are
marked flat: from a flat-marked node only snapshot parent links are
followed, not label references. -/
theorem c1_gcReachability (env : GC.Env) (s : GC.DBState) (n : GC.Node) :
    n ∈ GC.allNodes (GC.sweep env s)
      ↔ n ∈ GC.allNodes s ∧ ∃ b, GC.Reaches env s n b := by
  rw [mem_allNodes_sweep, markedB_iff]

/-- Counterexample to claim C1 as stated: in a store whose only root is a
flat lease listing content d1 (which label-references d2), d2 is reachable
from the roots in the claim's sense (gc.ref labels followed from the
lease's listed resource) yet the cycle removes it. -/
theorem c1_counterexample :
    GC.ClaimReaches Fixtures.env0 Fixtures.cexFlat Fixtures.d2Node
    ∧ Fixtures.d2Node ∈ GC.allNodes Fixtures.cexFlat
    ∧ Fixtures.d2Node ∉ GC.allNodes (GC.sweep Fixtures.env0 Fixtures.cexFlat) := by
  refine ⟨?_, by decide, by decide⟩
  have h0 : (Fixtures.d1Node, true) ∈ GC.rootsOf Fixtures.env0 Fixtures.cexFlat := by
    decide
  have h1 : GC.ClaimReaches Fixtures.env0 Fixtures.cexFlat Fixtures.d1Node :=
    GC.ClaimReaches.root h0
  have h2 : (Fixtures.d2Node, false)
      ∈ GC.nodeRefs Fixtures.env0 Fixtures.cexFlat Fixtures.d1Node false := by
    decide
  exact GC.ClaimReaches.step h1 h2

/-- Claim C2 (amended): a flat lease's marking contribution is exactly its
directly listed resources together with the snapshot parent chains of those
resources — flat marking (flag `true`) reaches a node exactly when the node
is on the parent chain of some flat root, the flat roots are exactly the
resources directly listed by unexpired `gc.flat`-labeled leases (label
references out of flat-marked nodes are not followed), and a stored node
neither ordinarily reachable nor on the parent chain of any flat root does
not survive the cycle. -/
theorem c2_flatLeaseContribution (env : GC.Env) (s : GC.DBState) (n : GC.Node) :
    (GC.Reaches env s n true ↔
      ∃ r, (r, true) ∈ GC.rootsOf env s ∧ GC.ParentChain env s r n)
    ∧ (∀ r, (r, true) ∈ GC.rootsOf env s ↔
        ∃ l ∈ s.leases, GC.leaseExpired env l = false ∧ GC.leaseFlat l = true
          ∧ r ∈ l.resources.flatMap (GC.resourceNode env l.ns))
    ∧ (n ∈ GC.allNodes s → ¬ GC.Reaches env s n false →
        (∀ r, (r, true) ∈ GC.rootsOf env s → ¬ GC.ParentChain env s r n) →
        n ∉ GC.allNodes (GC.sweep env s)) := by
  refine ⟨⟨fun h => reaches_true_chain h rfl, ?_⟩, fun r => flatRoot_iff env s r, ?_⟩
  · rintro ⟨r, hroot, hchain⟩
    exact chain_reaches hroot hchain
  · intro _ hnf hnc hin
    obtain ⟨_, hb⟩ := (mem_allNodes_sweep env s n).mp hin
    rcases (markedB_iff env s n).mp hb with ⟨b2, hr⟩
    cases b2 with
    | false => exact hnf hr
    | true =>
      obtain ⟨r, hroot, hchain⟩ := reaches_true_chain hr rfl
      exact hnc r hroot hchain

set_option maxHeartbeats 1000000 in
theorem c2_witness :
    Fixtures.d2Node ∉ GC.allNodes (GC.sweep Fixtures.env0 Fixtures.cexFlat) := by
  have hnm1 : (Fixtures.d2Node, false) ∉ GC.markedPairs Fixtures.env0 Fixtures.cexFlat := by
    decide
  have hnm2 : (Fixtures.d2Node, true) ∉ GC.markedPairs Fixtures.env0 Fixtures.cexFlat := by
    decide
  refine (c2_flatLeaseContribution Fixtures.env0 Fixtures.cexFlat Fixtures.d2Node).2.2
    (by decide) ?_ ?_
  · intro h
    exact hnm1 (@reaches_marked Fixtures.env0 Fixtures.cexFlat Fixtures.d2Node false h)
  · intro r hr hc
    exact hnm2 (@reaches_marked Fixtures.env0 Fixtures.cexFlat Fixtures.d2Node true
      (@chain_reaches Fixtures.env0 Fixtures.cexFlat r Fixtures.d2Node hr hc))

/-- Counterexample to claim C2 as stated: k1 is reachable from the flat
lease's directly listed resource k2 only via the snapshot parent link, and
from no other root (the store's only roots are the lease and k2), yet k1
survives the cycle. -/
theorem c2_counterexample :
    GC.leaseFlat Fixtures.cexFlatSnapLease = true
    ∧ GC.rootsOf Fixtures.env0 Fixtures.cexFlatSnap
        = [(GC.leaseNode Fixtures.cexFlatSnapLease, false), (Fixtures.s2Node, true)]
    ∧ Fixtures.s1Node ≠ GC.leaseNode Fixtures.cexFlatSnapLease
    ∧ Fixtures.s1Node ≠ Fixtures.s2Node
    ∧ (Fixtures.s1Node, true)
        ∈ GC.nodeRefs Fixtures.env0 Fixtures.cexFlatSnap Fixtures.s2Node true
    ∧ Fixtures.s1Node ∈ GC.allNodes (GC.sweep Fixtures.env0 Fixtures.cexFlatSnap) := by
  decide

theorem resourceRoot_mem {env : GC.Env} {s : GC.DBState} {l : GC.LeaseRecord}
    {n : GC.Node} (hl : l ∈ s.leases) (hexp : GC.leaseExpired env l = false)
    (hn : n ∈ l.resources.flatMap (GC.resourceNode env l.ns)) :
    (n, GC.leaseFlat l) ∈ GC.rootsOf env s := by
  unfold GC.rootsOf
  simp only [List.mem_append]
  refine Or.inl (Or.inr (List.mem_flatMap.mpr
    ⟨l, List.mem_filter.mpr ⟨hl, by simp [hexp]⟩, ?_⟩))
  rw [List.mem_cons]
  refine Or.inr ?_
  rw [List.mem_append]
  exact Or.inl (List.mem_map.mpr ⟨n, hn, rfl⟩)

/-- Claim C3 (amended to non-flat leases): for every live (unexpired) lease
without the `gc.flat` label, every node reachable from the lease's resource
set — listed directly or reached by following reference edges (in
particular `gc.ref.content.*` labels) from another reachable node — is
never removed by a GC cycle. -/
theorem c3_leaseContentPreserved (env : GC.Env) (s : GC.DBState)
    (l : GC.LeaseRecord) (n : GC.Node) (hl : l ∈ s.leases)
    (hexp : GC.leaseExpired env l = false) (hflat : GC.leaseFlat l = false)
    (hr : GC.FromLease env s l n) (hmem : n ∈ GC.allNodes s) :
    n ∈ GC.allNodes (GC.sweep env s) := by
  refine (mem_allNodes_sweep env s n).mpr
    ⟨hmem, (markedB_iff env s n).mpr ⟨false, ?_⟩⟩
  clear hmem
  induction hr with
  | res hn =>
    refine GC.Reaches.root ?_
    rw [← hflat]
    exact resourceRoot_mem hl hexp hn
  | step hpre href ih =>
    rename_i n0 m0 b0
    have hb : b0 = false := refs_false_flag (m0, b0) href
    subst hb
    exact GC.Reaches.step ih href

/-- Counterexample to claim C3 as stated: lease-f is live (unexpired, not
deleted) and content d2 is reached from its resource set by following a
`gc.ref.content.*` label from d1, which the lease lists directly — yet the
cycle removes d2, because the lease is flat. -/
theorem c3_counterexample :
    Fixtures.cexFlatLease ∈ Fixtures.cexFlat.leases
    ∧ GC.leaseExpired Fixtures.env0 Fixtures.cexFlatLease = false
    ∧ GC.FromLease Fixtures.env0 Fixtures.cexFlat Fixtures.cexFlatLease Fixtures.d2Node
    ∧ Fixtures.d2Node ∈ GC.allNodes Fixtures.cexFlat
    ∧ Fixtures.d2Node ∉ GC.allNodes (GC.sweep Fixtures.env0 Fixtures.cexFlat) := by
  refine ⟨by decide, by decide, ?_, by decide, by decide⟩
  have h1 : GC.FromLease Fixtures.env0 Fixtures.cexFlat Fixtures.cexFlatLease
      Fixtures.d1Node := GC.FromLease.res (by decide)
  have h2 : (Fixtures.d2Node, false)
      ∈ GC.nodeRefs Fixtures.env0 Fixtures.cexFlat Fixtures.d1Node false := by
    decide
  exact GC.FromLease.step h1 h2

theorem c3_witness :
    Fixtures.d2Node ∈ GC.allNodes (GC.sweep Fixtures.env0 Fixtures.goodState) := by
  have h1 : GC.FromLease Fixtures.env0 Fixtures.goodState Fixtures.goodLeaseRec
      Fixtures.d1Node := GC.FromLease.res (by decide)
  have h2 : (Fixtures.d2Node, false)
      ∈ GC.nodeRefs Fixtures.env0 Fixtures.goodState Fixtures.d1Node false := by
    decide
  exact c3_leaseContentPreserved Fixtures.env0 Fixtures.goodState Fixtures.goodLeaseRec
    Fixtures.d2Node (by decide) (by decide) (by decide)
    (GC.FromLease.step h1 h2) (by decide)

set_option maxRecDepth 4000 in
set_option maxHeartbeats 2000000 in
theorem gcModelMatchesCollectorTest :
    GC.sweep TestFx.envT TestFx.stateT = TestFx.expectedT := by decide
